import Mathlib

/-!
Verification of the log-management pipeline in `order-logfiles/order_log_files.py`.

The script's core is:
  * a filename classifier: `log_format_regex = re.compile("(.*)_([0-9]{4}-[0-9]{2}-[0-9]{2}).log")`
    applied with `.search` to each file's base name, taking capture group 1 as the service name;
  * a router `organize_logs` that moves each log into `DEST_DIR/<service>/<name>`, creating the
    service directory, skipping (with a warning) when the destination already exists, and catching
    `FileNotFoundError`/`PermissionError` per file;
  * an auditor/report writer `find_error_in_logs` that truncate-creates the report file, walks the
    destination tree for `*.log` files and writes one line `"<name>: <n> errores\n"` per file,
    where `n = len(log_error_regex.findall(text))` with `log_error_regex = re.compile(r"\berror\b",
    re.IGNORECASE)`; its `try` wraps the whole loop, so a read failure ends the loop;
  * a `__main__` driver that binds `logs_found = log_dir_path.glob('*.log')` (a generator),
    exhausts it in `len(list(logs_found))`, and then iterates the already-exhausted generator.

Characters are modelled as Lean `Char`; the word-character class of `\b` is modelled as
ASCII alphanumerics plus underscore (the contents relevant to the claims are ASCII).
-/

namespace OrderLogs

/-- One step of the tail of `log_format_regex` after the `(.*)` group: an underscore, a
`[0-9]{4}-[0-9]{2}-[0-9]{2}` date, one arbitrary character (the unescaped `.` of `.log`,
which matches anything except a newline), and the literal letters `log`; the pattern is
unanchored, so anything may follow. -/
def tailMatch : List Char → Bool
  | '_' :: y1 :: y2 :: y3 :: y4 :: '-' :: m1 :: m2 :: '-' :: d1 :: d2 :: dot :: 'l' :: 'o' :: 'g' :: _ =>
      y1.isDigit && y2.isDigit && y3.isDigit && y4.isDigit &&
      m1.isDigit && m2.isDigit && d1.isDigit && d2.isDigit && !(dot = '\n')
  | _ => false

/-- The greedy `(.*)` group at a fixed start position: try the longest extension first
(`.` never matches a newline), and otherwise match the tail here with an empty group.
Returns the characters consumed by `(.*)` when the attempt from this position succeeds. -/
def groupSearch : List Char → Option (List Char)
  | [] => none
  | c :: rest =>
    if c = '\n' then
      if tailMatch (c :: rest) then some [] else none
    else
      match groupSearch rest with
      | some g => some (c :: g)
      | none => if tailMatch (c :: rest) then some [] else none

/-- `log_format_regex.search(name)` returning capture group 1: try each start position from
the left; at each position the greedy group attempt is `groupSearch`. -/
def reSearch : List Char → Option (List Char)
  | [] => none
  | c :: rest =>
    match groupSearch (c :: rest) with
    | some g => some g
    | none => reSearch rest

/-- The word-character class of `\b` (ASCII fragment of Python's `\w`): letters, digits,
underscore. -/
def wordChar (c : Char) : Bool := c.isAlphanum || c = '_'

/-- Case pair of `e` under `re.IGNORECASE`. -/
def chE (c : Char) : Bool := c = 'e' || c = 'E'

/-- Case pair of `r` under `re.IGNORECASE`. -/
def chR (c : Char) : Bool := c = 'r' || c = 'R'

/-- Case pair of `o` under `re.IGNORECASE`. -/
def chO (c : Char) : Bool := c = 'o' || c = 'O'

/-- The list starts with the five letters of `error`, case-insensitively. -/
def errAt : List Char → Bool
  | c1 :: c2 :: c3 :: c4 :: c5 :: _ => chE c1 && chR c2 && chR c3 && chO c4 && chR c5
  | _ => false

/-- The list starts with a word character (used for the `\b` checks). -/
def headWord : List Char → Bool
  | c :: _ => wordChar c
  | [] => false

/-- `\berror\b` matches at the head of `l`, where `prevW` says whether the character just
before `l` is a word character: the left boundary needs a non-word (or absent) predecessor,
the five letters of `error` in either case, and a non-word (or absent) successor. -/
def matchHead (prevW : Bool) (l : List Char) : Bool :=
  !prevW && errAt l && !headWord (l.drop 5)

/-- The scan loop of `log_error_regex.findall`: positions are tried left to right; a match
consumes its five characters (`skip` counts characters still inside the previous match),
and `prevW` tracks whether the previous character was a word character. -/
def errScan : Nat → Bool → List Char → Nat
  | _, _, [] => 0
  | Nat.succ k, _, c :: rest => errScan k (wordChar c) rest
  | 0, prevW, c :: rest =>
    if matchHead prevW (c :: rest) then 1 + errScan 4 true rest
    else errScan 0 (wordChar c) rest

/-- `len(log_error_regex.findall(text))`: the audit's per-file error count. -/
def countErrors (l : List Char) : Nat := errScan 0 false l

/-- Declarative whole-word occurrence count: the number of positions at which `error`
occurs case-insensitively with a non-word (or absent) character on both sides. -/
def posCount : Bool → List Char → Nat
  | _, [] => 0
  | prevW, c :: rest =>
    (if matchHead prevW (c :: rest) then 1 else 0) + posCount (wordChar c) rest

/-- A file in the source directory: its base name, its text content, and whether moving
it out can succeed (`canMove = false` models a `PermissionError` raised by `move`) and
whether its content can be read later (`readable = false` models a `PermissionError`
from `read_text`). -/
structure SrcFile where
  name : String
  content : String
  canMove : Bool
  readable : Bool
deriving DecidableEq

/-- A file in the destination tree `DEST_DIR/<service>/<name>`. -/
structure DestFile where
  service : String
  name : String
  content : String
  readable : Bool
deriving DecidableEq

/-- The filesystem state the pipeline mutates: the top level of the source directory, the
files of the destination tree, and the per-service directories existing under `DEST_DIR`. -/
structure FS where
  src : List SrcFile
  dest : List DestFile
  destDirs : List String
deriving DecidableEq

/-- Look up a source file by base name. -/
def srcLookup (fs : FS) (n : String) : Option SrcFile :=
  fs.src.find? (fun f => f.name == n)

/-- `(DEST_DIR / service / name).exists()`: look up a destination file by service and name. -/
def destLookup (fs : FS) (s n : String) : Option DestFile :=
  fs.dest.find? (fun f => f.service == s && f.name == n)

/-- `(DEST_DIR / service).mkdir(exist_ok=True, parents=True)`: create the service directory
if it is not already there. -/
def mkdirService (fs : FS) (s : String) : FS :=
  { fs with destDirs := if fs.destDirs.contains s then fs.destDirs else s :: fs.destDirs }

/-- What happened to one file in the routing loop: moved, skipped because the destination
already exists (warning on stderr), or a caught `FileNotFoundError` / `PermissionError`
(error on stderr). -/
inductive RouteOutcome where
  | moved
  | skippedExists
  | errNotFound
  | errPerm
deriving DecidableEq

/-- The body of the `for log in logs` loop of `organize_logs`, for one file name.
`none` models the uncaught `AttributeError` raised by `log_search.group(1)` when
`log_format_regex.search` found no match: it aborts the whole stage. Otherwise the
service directory is created, and either the destination exists (skip), the source is
gone (`FileNotFoundError`, caught), the source cannot be moved (`PermissionError`,
caught), or the file is moved. -/
def routeOne (fs : FS) (n : String) : Option (FS × RouteOutcome) :=
  match reSearch n.data with
  | none => none
  | some g =>
    let service := String.mk g
    let fs1 := mkdirService fs service
    match destLookup fs1 service n with
    | some _ => some (fs1, RouteOutcome.skippedExists)
    | none =>
      match srcLookup fs1 n with
      | none => some (fs1, RouteOutcome.errNotFound)
      | some f =>
        if f.canMove then
          some ({ fs1 with
                    src := fs1.src.filter (fun x => x.name != n),
                    dest := ⟨service, n, f.content, f.readable⟩ :: fs1.dest },
                RouteOutcome.moved)
        else
          some (fs1, RouteOutcome.errPerm)

/-- `organize_logs(logs, log_format_regex)`: route each file in order; record one outcome
per processed file. The final `Bool` is `true` when the stage was aborted by the uncaught
`AttributeError` of a non-matching name (later files are then not processed). -/
def organize_logs : FS → List String → FS × List (String × RouteOutcome) × Bool
  | fs, [] => (fs, [], false)
  | fs, n :: rest =>
    match routeOne fs n with
    | none => (fs, [], true)
    | some (fs1, o) =>
      let r := organize_logs fs1 rest
      (r.1, (n, o) :: r.2.1, r.2.2)

/-- A file as seen by the auditor: base name, content, and whether `read_text()` succeeds. -/
structure AuditFile where
  name : String
  content : String
  readable : Bool
deriving DecidableEq

/-- `file.write(f"{logfile.name}: {n} errores\n")`: the report line written for one file. -/
def reportLine (f : AuditFile) : String :=
  f.name ++ ": " ++ Nat.repr (countErrors f.content.data) ++ " errores\n"

/-- `find_error_in_logs`: the report file is truncate-created (it starts empty regardless of
any previous content), then one line is written per file of the traversal. The `try` block
wraps the whole loop, so the first unreadable file ends the loop: the lines already written
remain in the report, the error is printed, and the function returns (`true` flag). -/
def find_error_in_logs : List AuditFile → List String × Bool
  | [] => ([], false)
  | f :: rest =>
    if f.readable then
      let r := find_error_in_logs rest
      (reportLine f :: r.1, r.2)
    else ([], true)

/-- `log_dir_path.glob('*.log')` membership: the base name ends in `.log`. -/
def globMatchLog (n : String) : Bool :=
  n.data.reverse.take 4 == ['g', 'o', 'l', '.']

/-- The list of top-level source files matching `*.log`, in directory order. -/
def globLogs (fs : FS) : List String :=
  (fs.src.filter (fun f => globMatchLog f.name)).map (fun f => f.name)

/-- `Path(new_logdir).rglob('*.log')` over the destination tree, as audit inputs. -/
def destAuditFiles (fs : FS) : List AuditFile :=
  (fs.dest.filter (fun f => globMatchLog f.name)).map (fun f => ⟨f.name, f.content, f.readable⟩)

/-- A Python generator over file names: `remaining` is what iteration will still yield. -/
structure PyGen where
  remaining : List String
deriving DecidableEq

/-- Fully iterating a generator (a `list(...)` call or a `for` loop): yields everything
that remained and leaves the generator exhausted. -/
def genTakeAll (g : PyGen) : List String × PyGen :=
  (g.remaining, ⟨[]⟩)

/-- The observable result of the `__main__` driver (after its precondition checks on the
source directory, the interactive prompts, and the destination-root bootstrap, which the
spec scopes out): whether it exited at the `No log files found` check, the final
filesystem, the routing outcomes, the report lines (`none` when never written), and
whether routing crashed. -/
structure MainResult where
  exitedNoLogs : Bool
  fs : FS
  outcomes : List (String × RouteOutcome)
  report : Option (List String)
  crashed : Bool
deriving DecidableEq

/-- The driver of `__main__` from `logs_found = log_dir_path.glob('*.log')` on:
`len(list(logs_found))` consumes the generator; the `for item in logs_found` loop and
`print(list(logs_found))` then iterate the already-exhausted generator, and so does
`organize_logs`. A routing crash (uncaught `AttributeError`) would stop the program
before `find_error_in_logs`. -/
def mainRun (fs : FS) : MainResult :=
  let logsFound : PyGen := ⟨globLogs fs⟩
  let t1 := genTakeAll logsFound
  if t1.1.length = 0 then
    ⟨true, fs, [], none, false⟩
  else
    let t2 := genTakeAll t1.2
    let t3 := genTakeAll t2.2
    let r := organize_logs fs t3.2.remaining
    if r.2.2 then ⟨false, r.1, r.2.1, none, true⟩
    else ⟨false, r.1, r.2.1, some (find_error_in_logs (destAuditFiles r.1)).1, false⟩

/-- Modelled from the spec: the input constraint of `classify` (§4.1) — the whole name is
`<service>_<date>.log` with `<service>` non-empty, `<date>` exactly `YYYY-MM-DD` (4-2-2
digit groups, literal dashes) and the literal `.log` extension. Stated from the spec's
words for comparison with the code's classifier. -/
def specWholePattern (l : List Char) : Bool :=
  match l.reverse with
  | 'g' :: 'o' :: 'l' :: '.' :: d2 :: d1 :: '-' :: m2 :: m1 :: '-' :: y4 :: y3 :: y2 :: y1 :: '_' :: s =>
      d2.isDigit && d1.isDigit && m2.isDigit && m1.isDigit &&
      y4.isDigit && y3.isDigit && y2.isDigit && y1.isDigit && !s.isEmpty
  | _ => false

/-- The routing outcome a file receives when the state can no longer change for it:
mirrors the decision order of `routeOne`. -/
def stuckOutcome (fs : FS) (n : String) : RouteOutcome :=
  match reSearch n.data with
  | none => RouteOutcome.errNotFound
  | some g =>
    if (destLookup fs (String.mk g) n).isSome then RouteOutcome.skippedExists
    else
      match srcLookup fs n with
      | none => RouteOutcome.errNotFound
      | some f => if f.canMove then RouteOutcome.moved else RouteOutcome.errPerm

/-- A file is stuck in state `fs`: its destination is already occupied, or its source entry
is gone, or its source entry cannot be moved. A stuck file is never moved by a further run. -/
def Stuck (fs : FS) (n : String) : Prop :=
  (∃ g, reSearch n.data = some g ∧ (destLookup fs (String.mk g) n).isSome = true) ∨
  srcLookup fs n = none ∨
  (∃ f, srcLookup fs n = some f ∧ f.canMove = false)

/-- The service directory of `n` already exists in `fs`. -/
def DirsReady (fs : FS) (n : String) : Prop :=
  ∀ g, reSearch n.data = some g → fs.destDirs.contains (String.mk g) = true

/-- A source directory holding one well-formed log file (concrete test fixture). -/
def fsSample1 : FS :=
  FS.mk [SrcFile.mk "app_2024-01-01.log" "error here" true true] [] []

/-- A source directory with no `*.log` file at all (concrete test fixture). -/
def fsNoLogs : FS :=
  FS.mk [SrcFile.mk "readme.txt" "" true true] [] []

/-- A state where the destination of `svc_2024-01-01.log` is already occupied
(concrete test fixture). -/
def fsCollide : FS :=
  FS.mk [SrcFile.mk "svc_2024-01-01.log" "new" true true]
    [DestFile.mk "svc" "svc_2024-01-01.log" "old" true] ["svc"]

/-- A source directory with one movable file and one permission-protected file
(concrete test fixture). -/
def fsTwo : FS :=
  FS.mk [SrcFile.mk "a_2024-01-01.log" "x" true true,
    SrcFile.mk "b_2024-01-01.log" "y" false true] [] []

theorem wordChar_of_chE (c : Char) (h : chE c = true) : wordChar c = true := by
  rcases (by simpa [chE] using h : c = 'e' ∨ c = 'E') with h | h <;> subst h <;> decide

theorem wordChar_of_chR (c : Char) (h : chR c = true) : wordChar c = true := by
  rcases (by simpa [chR] using h : c = 'r' ∨ c = 'R') with h | h <;> subst h <;> decide

theorem wordChar_of_chO (c : Char) (h : chO c = true) : wordChar c = true := by
  rcases (by simpa [chO] using h : c = 'o' ∨ c = 'O') with h | h <;> subst h <;> decide

theorem matchHead_true_left (l : List Char) : matchHead true l = false := by
  simp [matchHead]

theorem errScan_eq_posCount_aux :
    ∀ (fuel : Nat) (prevW : Bool) (l : List Char), l.length ≤ fuel →
      errScan 0 prevW l = posCount prevW l := by
  intro fuel
  induction fuel with
  | zero =>
    intro prevW l h
    have hl : l = [] := List.length_eq_zero.mp (Nat.le_zero.mp h)
    subst hl; rfl
  | succ fl ih =>
    intro prevW l h
    rcases l with - | ⟨c, rest⟩
    · rfl
    · by_cases hm : matchHead prevW (c :: rest) = true
      · have herr : errAt (c :: rest) = true := by
          have hm' := hm
          simp only [matchHead, Bool.and_eq_true] at hm'
          exact hm'.1.2
        rcases rest with - | ⟨b, - | ⟨c2, - | ⟨d, - | ⟨e, rest2⟩⟩⟩⟩
        · simp [errAt] at herr
        · simp [errAt] at herr
        · simp [errAt] at herr
        · simp [errAt] at herr
        · simp only [errAt, Bool.and_eq_true] at herr
          obtain ⟨⟨⟨⟨h1, h2⟩, h3⟩, h4⟩, h5⟩ := herr
          have hw1 := wordChar_of_chE c h1
          have hw2 := wordChar_of_chR b h2
          have hw3 := wordChar_of_chR c2 h3
          have hw4 := wordChar_of_chO d h4
          have hw5 := wordChar_of_chR e h5
          have hrec : errScan 0 true rest2 = posCount true rest2 := by
            apply ih
            simp only [List.length_cons] at h
            omega
          simp [errScan, posCount, hm, hw1, hw2, hw3, hw4, hw5, matchHead_true_left, hrec]
      · have hrec : errScan 0 (wordChar c) rest = posCount (wordChar c) rest := by
          apply ih
          simp only [List.length_cons] at h
          omega
        simp [errScan, posCount, hm, hrec]

theorem errScan_eq_posCount (prevW : Bool) (l : List Char) :
    errScan 0 prevW l = posCount prevW l :=
  errScan_eq_posCount_aux l.length prevW l (Nat.le_refl _)

theorem tailMatch_nil : tailMatch [] = false := rfl

theorem groupSearch_sound :
    ∀ (l g : List Char), groupSearch l = some g →
      ∃ rest, l = g ++ rest ∧ tailMatch rest = true := by
  intro l
  induction l with
  | nil => intro g h; simp [groupSearch] at h
  | cons c t ih =>
    intro g h
    by_cases hc : c = '\n'
    · rw [groupSearch, if_pos hc] at h
      by_cases ht : tailMatch (c :: t) = true
      · rw [if_pos ht] at h
        obtain rfl : ([] : List Char) = g := Option.some.inj h
        exact ⟨c :: t, rfl, ht⟩
      · rw [if_neg ht] at h; exact absurd h (by simp)
    · rw [groupSearch, if_neg hc] at h
      cases hgs : groupSearch t with
      | some g' =>
        rw [hgs] at h
        obtain rfl : c :: g' = g := Option.some.inj h
        obtain ⟨r, hr, htm⟩ := ih g' hgs
        exact ⟨r, by simp [hr], htm⟩
      | none =>
        rw [hgs] at h
        by_cases ht : tailMatch (c :: t) = true
        · rw [if_pos ht] at h
          obtain rfl : ([] : List Char) = g := Option.some.inj h
          exact ⟨c :: t, rfl, ht⟩
        · rw [if_neg ht] at h; exact absurd h (by simp)

theorem groupSearch_none_tail (l : List Char) (h : groupSearch l = none) :
    tailMatch l = false := by
  cases l with
  | nil => rfl
  | cons c t =>
    by_cases hc : c = '\n'
    · rw [groupSearch, if_pos hc] at h
      by_cases ht : tailMatch (c :: t) = true
      · rw [if_pos ht] at h; exact absurd h (by simp)
      · simpa using ht
    · rw [groupSearch, if_neg hc] at h
      cases hgs : groupSearch t with
      | some g' => rw [hgs] at h; exact absurd h (by simp)
      | none =>
        rw [hgs] at h
        by_cases ht : tailMatch (c :: t) = true
        · rw [if_pos ht] at h; exact absurd h (by simp)
        · simpa using ht

theorem groupSearch_complete :
    ∀ (l : List Char), '\n' ∉ l → ∀ i, tailMatch (l.drop i) = true →
      (groupSearch l).isSome = true := by
  intro l
  induction l with
  | nil => intro _ i h; simp at h; exact absurd h (by simp [tailMatch_nil])
  | cons c t ih =>
    intro hnl i h
    have hc : ¬ c = '\n' := fun e => hnl (e ▸ List.mem_cons_self c t)
    rw [groupSearch, if_neg hc]
    cases hgs : groupSearch t with
    | some g' => rfl
    | none =>
      cases i with
      | zero =>
        simp only [List.drop_zero] at h
        rw [if_pos h]; rfl
      | succ i' =>
        have : (groupSearch t).isSome = true :=
          ih (fun m => hnl (List.mem_cons_of_mem c m)) i' (by simpa using h)
        rw [hgs] at this; exact absurd this (by simp)

theorem groupSearch_max :
    ∀ (l g : List Char), '\n' ∉ l → groupSearch l = some g →
      ∀ i, tailMatch (l.drop i) = true → i ≤ g.length := by
  intro l
  induction l with
  | nil => intro g _ h; simp [groupSearch] at h
  | cons c t ih =>
    intro g hnl h i htm
    have hc : ¬ c = '\n' := fun e => hnl (e ▸ List.mem_cons_self c t)
    rw [groupSearch, if_neg hc] at h
    cases hgs : groupSearch t with
    | some g' =>
      rw [hgs] at h
      obtain rfl : c :: g' = g := Option.some.inj h
      cases i with
      | zero => simp
      | succ i' =>
        have := ih g' (fun m => hnl (List.mem_cons_of_mem c m)) hgs i' (by simpa using htm)
        simpa [Nat.succ_le_succ_iff] using this
    | none =>
      rw [hgs] at h
      by_cases ht : tailMatch (c :: t) = true
      · rw [if_pos ht] at h
        obtain rfl : ([] : List Char) = g := Option.some.inj h
        cases i with
        | zero => simp
        | succ i' =>
          have := groupSearch_complete t (fun m => hnl (List.mem_cons_of_mem c m)) i'
            (by simpa using htm)
          rw [hgs] at this; exact absurd this (by simp)
      · rw [if_neg ht] at h; exact absurd h (by simp)

theorem reSearch_of_groupSearch (l g : List Char) (h : groupSearch l = some g) :
    reSearch l = some g := by
  cases l with
  | nil => simp [groupSearch] at h
  | cons c t => rw [reSearch, h]

theorem reSearch_sound_anchor :
    ∀ (l : List Char), (reSearch l).isSome = true →
      ∃ i, i < l.length ∧ tailMatch (l.drop i) = true := by
  intro l
  induction l with
  | nil => intro h; simp [reSearch] at h
  | cons c t ih =>
    intro h
    rw [reSearch] at h
    cases hgs : groupSearch (c :: t) with
    | some g =>
      obtain ⟨r, hr, htm⟩ := groupSearch_sound (c :: t) g hgs
      refine ⟨g.length, ?_, ?_⟩
      · have hrne : r ≠ [] := fun e => by rw [e] at htm; exact absurd htm (by simp [tailMatch_nil])
        have : 0 < r.length := List.length_pos.mpr hrne
        rw [hr, List.length_append]; omega
      · rw [hr, List.drop_left]; exact htm
    | none =>
      rw [hgs] at h
      obtain ⟨i, hi, htm⟩ := ih h
      exact ⟨i + 1, by simpa using hi, by simpa using htm⟩

theorem mkdir_noop (fs : FS) (s : String) (h : fs.destDirs.contains s = true) :
    mkdirService fs s = fs := by
  unfold mkdirService
  rw [if_pos h]

theorem mkdir_contains_self (fs : FS) (s : String) :
    (mkdirService fs s).destDirs.contains s = true := by
  unfold mkdirService
  by_cases h : fs.destDirs.contains s = true
  · rw [if_pos h]; exact h
  · rw [if_neg h]; simp [List.contains_cons]

theorem mkdir_contains_mono (fs : FS) (s0 s : String) (h : fs.destDirs.contains s = true) :
    (mkdirService fs s0).destDirs.contains s = true := by
  unfold mkdirService
  by_cases h0 : fs.destDirs.contains s0 = true
  · rw [if_pos h0]; exact h
  · rw [if_neg h0]
    have hm : s ∈ fs.destDirs := by simpa using h
    simp [List.contains_cons]
    exact Or.inr hm

theorem destLookup_mkdir (fs : FS) (s0 s n : String) :
    destLookup (mkdirService fs s0) s n = destLookup fs s n := by
  unfold mkdirService destLookup
  by_cases h0 : fs.destDirs.contains s0 = true
  · rw [if_pos h0]
  · rw [if_neg h0]

theorem srcLookup_mkdir (fs : FS) (s0 : String) (n : String) :
    srcLookup (mkdirService fs s0) n = srcLookup fs n := by
  unfold mkdirService srcLookup
  by_cases h0 : fs.destDirs.contains s0 = true
  · rw [if_pos h0]
  · rw [if_neg h0]

theorem find?_name_filter (l : List SrcFile) (nn m : String) (hne : nn ≠ m) :
    (l.filter (fun x => x.name != m)).find? (fun f => f.name == nn) =
      l.find? (fun f => f.name == nn) := by
  induction l with
  | nil => rfl
  | cons x t ih =>
    by_cases hx : x.name = m
    · have h1 : (x.name != m) = false := by simp [hx]
      have h2 : (x.name == nn) = false := by
        simp only [beq_eq_false_iff_ne, ne_eq, hx]
        exact fun e => hne e.symm
      simp [List.filter_cons, h1, List.find?_cons, h2, ih]
    · have h1 : (x.name != m) = true := by simp [hx]
      by_cases h2 : (x.name == nn) = true
      · simp [List.filter_cons, h1, List.find?_cons, h2]
      · have h2' : (x.name == nn) = false := by simpa using h2
        simp [List.filter_cons, h1, List.find?_cons, h2', ih]

theorem routeOne_noneEq (fs : FS) (n : String) (h : reSearch n.data = none) :
    routeOne fs n = none := by
  unfold routeOne
  rw [h]

theorem routeOne_skipEq (fs : FS) (n : String) (g : List Char) (d : DestFile)
    (hg : reSearch n.data = some g) (hd : destLookup fs (String.mk g) n = some d) :
    routeOne fs n = some (mkdirService fs (String.mk g), RouteOutcome.skippedExists) := by
  unfold routeOne
  rw [hg]
  show (match destLookup (mkdirService fs (String.mk g)) (String.mk g) n with
    | some _ => some (mkdirService fs (String.mk g), RouteOutcome.skippedExists)
    | none =>
      match srcLookup (mkdirService fs (String.mk g)) n with
      | none => some (mkdirService fs (String.mk g), RouteOutcome.errNotFound)
      | some f =>
        if f.canMove then
          some ({ mkdirService fs (String.mk g) with
                    src := (mkdirService fs (String.mk g)).src.filter (fun x => x.name != n),
                    dest := ⟨String.mk g, n, f.content, f.readable⟩ ::
                      (mkdirService fs (String.mk g)).dest },
                RouteOutcome.moved)
        else some (mkdirService fs (String.mk g), RouteOutcome.errPerm)) = _
  rw [destLookup_mkdir, hd]

theorem routeOne_notfoundEq (fs : FS) (n : String) (g : List Char)
    (hg : reSearch n.data = some g) (hd : destLookup fs (String.mk g) n = none)
    (hs : srcLookup fs n = none) :
    routeOne fs n = some (mkdirService fs (String.mk g), RouteOutcome.errNotFound) := by
  unfold routeOne
  rw [hg]
  show (match destLookup (mkdirService fs (String.mk g)) (String.mk g) n with
    | some _ => some (mkdirService fs (String.mk g), RouteOutcome.skippedExists)
    | none =>
      match srcLookup (mkdirService fs (String.mk g)) n with
      | none => some (mkdirService fs (String.mk g), RouteOutcome.errNotFound)
      | some f =>
        if f.canMove then
          some ({ mkdirService fs (String.mk g) with
                    src := (mkdirService fs (String.mk g)).src.filter (fun x => x.name != n),
                    dest := ⟨String.mk g, n, f.content, f.readable⟩ ::
                      (mkdirService fs (String.mk g)).dest },
                RouteOutcome.moved)
        else some (mkdirService fs (String.mk g), RouteOutcome.errPerm)) = _
  rw [destLookup_mkdir, hd]
  show (match srcLookup (mkdirService fs (String.mk g)) n with
    | none => some (mkdirService fs (String.mk g), RouteOutcome.errNotFound)
    | some f =>
      if f.canMove then
        some ({ mkdirService fs (String.mk g) with
                  src := (mkdirService fs (String.mk g)).src.filter (fun x => x.name != n),
                  dest := ⟨String.mk g, n, f.content, f.readable⟩ ::
                    (mkdirService fs (String.mk g)).dest },
              RouteOutcome.moved)
      else some (mkdirService fs (String.mk g), RouteOutcome.errPerm)) = _
  rw [srcLookup_mkdir, hs]

theorem routeOne_permEq (fs : FS) (n : String) (g : List Char) (f : SrcFile)
    (hg : reSearch n.data = some g) (hd : destLookup fs (String.mk g) n = none)
    (hs : srcLookup fs n = some f) (hcm : f.canMove = false) :
    routeOne fs n = some (mkdirService fs (String.mk g), RouteOutcome.errPerm) := by
  unfold routeOne
  rw [hg]
  show (match destLookup (mkdirService fs (String.mk g)) (String.mk g) n with
    | some _ => some (mkdirService fs (String.mk g), RouteOutcome.skippedExists)
    | none =>
      match srcLookup (mkdirService fs (String.mk g)) n with
      | none => some (mkdirService fs (String.mk g), RouteOutcome.errNotFound)
      | some f =>
        if f.canMove then
          some ({ mkdirService fs (String.mk g) with
                    src := (mkdirService fs (String.mk g)).src.filter (fun x => x.name != n),
                    dest := ⟨String.mk g, n, f.content, f.readable⟩ ::
                      (mkdirService fs (String.mk g)).dest },
                RouteOutcome.moved)
        else some (mkdirService fs (String.mk g), RouteOutcome.errPerm)) = _
  rw [destLookup_mkdir, hd]
  show (match srcLookup (mkdirService fs (String.mk g)) n with
    | none => some (mkdirService fs (String.mk g), RouteOutcome.errNotFound)
    | some f =>
      if f.canMove then
        some ({ mkdirService fs (String.mk g) with
                  src := (mkdirService fs (String.mk g)).src.filter (fun x => x.name != n),
                  dest := ⟨String.mk g, n, f.content, f.readable⟩ ::
                    (mkdirService fs (String.mk g)).dest },
              RouteOutcome.moved)
      else some (mkdirService fs (String.mk g), RouteOutcome.errPerm)) = _
  rw [srcLookup_mkdir, hs]
  show (if f.canMove then _ else
      some (mkdirService fs (String.mk g), RouteOutcome.errPerm)) = _
  rw [hcm]
  rfl

theorem routeOne_movedEq (fs : FS) (n : String) (g : List Char) (f : SrcFile)
    (hg : reSearch n.data = some g) (hd : destLookup fs (String.mk g) n = none)
    (hs : srcLookup fs n = some f) (hcm : f.canMove = true) :
    routeOne fs n = some (FS.mk (fs.src.filter (fun x => x.name != n))
      (DestFile.mk (String.mk g) n f.content f.readable :: fs.dest)
      (mkdirService fs (String.mk g)).destDirs, RouteOutcome.moved) := by
  unfold routeOne
  rw [hg]
  show (match destLookup (mkdirService fs (String.mk g)) (String.mk g) n with
    | some _ => some (mkdirService fs (String.mk g), RouteOutcome.skippedExists)
    | none =>
      match srcLookup (mkdirService fs (String.mk g)) n with
      | none => some (mkdirService fs (String.mk g), RouteOutcome.errNotFound)
      | some f =>
        if f.canMove then
          some ({ mkdirService fs (String.mk g) with
                    src := (mkdirService fs (String.mk g)).src.filter (fun x => x.name != n),
                    dest := ⟨String.mk g, n, f.content, f.readable⟩ ::
                      (mkdirService fs (String.mk g)).dest },
                RouteOutcome.moved)
        else some (mkdirService fs (String.mk g), RouteOutcome.errPerm)) = _
  rw [destLookup_mkdir, hd]
  show (match srcLookup (mkdirService fs (String.mk g)) n with
    | none => some (mkdirService fs (String.mk g), RouteOutcome.errNotFound)
    | some f =>
      if f.canMove then
        some ({ mkdirService fs (String.mk g) with
                  src := (mkdirService fs (String.mk g)).src.filter (fun x => x.name != n),
                  dest := ⟨String.mk g, n, f.content, f.readable⟩ ::
                    (mkdirService fs (String.mk g)).dest },
              RouteOutcome.moved)
      else some (mkdirService fs (String.mk g), RouteOutcome.errPerm)) = _
  rw [srcLookup_mkdir, hs]
  show (if f.canMove then
      some ({ mkdirService fs (String.mk g) with
                src := (mkdirService fs (String.mk g)).src.filter (fun x => x.name != n),
                dest := ⟨String.mk g, n, f.content, f.readable⟩ ::
                  (mkdirService fs (String.mk g)).dest },
            RouteOutcome.moved)
    else some (mkdirService fs (String.mk g), RouteOutcome.errPerm)) = _
  rw [hcm]
  rfl

theorem routeOne_cases (fs : FS) (n : String) (fs' : FS) (o : RouteOutcome)
    (h : routeOne fs n = some (fs', o)) :
    ∃ g, reSearch n.data = some g ∧
      ((∃ d, destLookup fs (String.mk g) n = some d ∧
          fs' = mkdirService fs (String.mk g) ∧ o = RouteOutcome.skippedExists) ∨
       (destLookup fs (String.mk g) n = none ∧ srcLookup fs n = none ∧
          fs' = mkdirService fs (String.mk g) ∧ o = RouteOutcome.errNotFound) ∨
       (∃ f, destLookup fs (String.mk g) n = none ∧ srcLookup fs n = some f ∧
          f.canMove = false ∧ fs' = mkdirService fs (String.mk g) ∧ o = RouteOutcome.errPerm) ∨
       (∃ f, destLookup fs (String.mk g) n = none ∧ srcLookup fs n = some f ∧
          f.canMove = true ∧ o = RouteOutcome.moved ∧
          fs' = FS.mk (fs.src.filter (fun x => x.name != n))
                  (DestFile.mk (String.mk g) n f.content f.readable :: fs.dest)
                  (mkdirService fs (String.mk g)).destDirs)) := by
  cases hg : reSearch n.data with
  | none => rw [routeOne_noneEq fs n hg] at h; exact absurd h (by simp)
  | some g =>
    refine ⟨g, rfl, ?_⟩
    cases hd : destLookup fs (String.mk g) n with
    | some d =>
      rw [routeOne_skipEq fs n g d hg hd] at h
      obtain ⟨h1, h2⟩ := Prod.mk.injEq .. |>.mp (Option.some.inj h)
      exact Or.inl ⟨d, rfl, h1.symm, h2.symm⟩
    | none =>
      cases hs : srcLookup fs n with
      | none =>
        rw [routeOne_notfoundEq fs n g hg hd hs] at h
        obtain ⟨h1, h2⟩ := Prod.mk.injEq .. |>.mp (Option.some.inj h)
        exact Or.inr (Or.inl ⟨rfl, rfl, h1.symm, h2.symm⟩)
      | some f =>
        by_cases hcm : f.canMove = true
        · rw [routeOne_movedEq fs n g f hg hd hs hcm] at h
          obtain ⟨h1, h2⟩ := Prod.mk.injEq .. |>.mp (Option.some.inj h)
          exact Or.inr (Or.inr (Or.inr ⟨f, rfl, rfl, hcm, h2.symm, h1.symm⟩))
        · have hcm' : f.canMove = false := by simpa using hcm
          rw [routeOne_permEq fs n g f hg hd hs hcm'] at h
          obtain ⟨h1, h2⟩ := Prod.mk.injEq .. |>.mp (Option.some.inj h)
          exact Or.inr (Or.inr (Or.inl ⟨f, rfl, rfl, hcm', h1.symm, h2.symm⟩))

theorem routeOne_isSome (fs : FS) (n : String) (h : (reSearch n.data).isSome = true) :
    ∃ fs' o, routeOne fs n = some (fs', o) := by
  obtain ⟨g, hg⟩ := Option.isSome_iff_exists.mp h
  cases hd : destLookup fs (String.mk g) n with
  | some d => exact ⟨_, _, routeOne_skipEq fs n g d hg hd⟩
  | none =>
    cases hs : srcLookup fs n with
    | none => exact ⟨_, _, routeOne_notfoundEq fs n g hg hd hs⟩
    | some f =>
      by_cases hcm : f.canMove = true
      · exact ⟨_, _, routeOne_movedEq fs n g f hg hd hs hcm⟩
      · exact ⟨_, _, routeOne_permEq fs n g f hg hd hs (by simpa using hcm)⟩

theorem routeOne_mono (fs : FS) (n : String) (fs' : FS) (o : RouteOutcome)
    (h : routeOne fs n = some (fs', o)) :
    (∀ s nn d, destLookup fs s nn = some d → destLookup fs' s nn = some d) ∧
    (∀ nn, srcLookup fs nn = none → srcLookup fs' nn = none) ∧
    (∀ nn f, srcLookup fs nn = some f → f.canMove = false → srcLookup fs' nn = some f) ∧
    (∀ s, fs.destDirs.contains s = true → fs'.destDirs.contains s = true) := by
  obtain ⟨g, hg, hcase⟩ := routeOne_cases fs n fs' o h
  rcases hcase with ⟨d, hd, rfl, -⟩ | ⟨hd, hs, rfl, -⟩ | ⟨f, hd, hs, hcm, rfl, -⟩ |
    ⟨f, hd, hs, hcm, -, rfl⟩
  · exact ⟨fun s nn d' h' => by rwa [destLookup_mkdir],
      fun nn h' => by rwa [srcLookup_mkdir],
      fun nn f' h' h'' => by rwa [srcLookup_mkdir],
      fun s h' => mkdir_contains_mono fs _ s h'⟩
  · exact ⟨fun s nn d' h' => by rwa [destLookup_mkdir],
      fun nn h' => by rwa [srcLookup_mkdir],
      fun nn f' h' h'' => by rwa [srcLookup_mkdir],
      fun s h' => mkdir_contains_mono fs _ s h'⟩
  · exact ⟨fun s nn d' h' => by rwa [destLookup_mkdir],
      fun nn h' => by rwa [srcLookup_mkdir],
      fun nn f' h' h'' => by rwa [srcLookup_mkdir],
      fun s h' => mkdir_contains_mono fs _ s h'⟩
  · refine ⟨?_, ?_, ?_, ?_⟩
    · intro s nn d' h'
      show (List.find? (fun f => f.service == s && f.name == nn)
        (DestFile.mk (String.mk g) n f.content f.readable :: fs.dest)) = some d'
      rw [List.find?_cons]
      by_cases hh : ((String.mk g == s) && (n == nn)) = true
      · exfalso
        obtain ⟨e1, e2⟩ := Bool.and_eq_true .. |>.mp hh
        rw [beq_iff_eq] at e1 e2
        have h2 : destLookup fs (String.mk g) n = some d' := by
          unfold destLookup
          rw [e1, e2]
          exact h'
        rw [hd] at h2
        exact absurd h2 (by simp)
      · have hh' : ((String.mk g == s) && (n == nn)) = false := by simpa using hh
        rw [show ((DestFile.mk (String.mk g) n f.content f.readable).service == s &&
            (DestFile.mk (String.mk g) n f.content f.readable).name == nn) =
            ((String.mk g == s) && (n == nn)) from rfl, hh']
        exact h'
    · intro nn h'
      show List.find? (fun f => f.name == nn) (fs.src.filter (fun x => x.name != n)) = none
      rw [List.find?_eq_none]
      intro x hx
      have h2 : ∀ x ∈ fs.src, ¬ (fun f => f.name == nn) x = true := List.find?_eq_none.mp h'
      exact h2 x (List.mem_of_mem_filter hx)
    · intro nn f' h' hcm'
      by_cases hne : nn = n
      · exfalso
        subst hne
        rw [h'] at hs
        obtain rfl := Option.some.inj hs
        rw [hcm'] at hcm
        exact absurd hcm (by simp)
      · show List.find? (fun f => f.name == nn) (fs.src.filter (fun x => x.name != n)) = some f'
        rw [find?_name_filter fs.src nn n hne]
        exact h'
    · intro s h'
      exact mkdir_contains_mono fs _ s h'

theorem routeOne_establishes (fs : FS) (n : String) (fs' : FS) (o : RouteOutcome)
    (h : routeOne fs n = some (fs', o)) :
    Stuck fs' n ∧ DirsReady fs' n ∧
      (o = RouteOutcome.moved →
        ∃ g, reSearch n.data = some g ∧ (destLookup fs' (String.mk g) n).isSome = true) := by
  obtain ⟨g, hg, hcase⟩ := routeOne_cases fs n fs' o h
  have hdirs : DirsReady fs' n → DirsReady fs' n := id
  rcases hcase with ⟨d, hd, rfl, rfl⟩ | ⟨hd, hs, rfl, rfl⟩ | ⟨f, hd, hs, hcm, rfl, rfl⟩ |
    ⟨f, hd, hs, hcm, rfl, rfl⟩
  · refine ⟨Or.inl ⟨g, hg, ?_⟩, ?_, by simp⟩
    · rw [destLookup_mkdir, hd]; rfl
    · intro g' hg'
      obtain rfl := Option.some.inj (hg ▸ hg')
      exact mkdir_contains_self fs _
  · refine ⟨Or.inr (Or.inl ?_), ?_, by simp⟩
    · rw [srcLookup_mkdir]; exact hs
    · intro g' hg'
      obtain rfl := Option.some.inj (hg ▸ hg')
      exact mkdir_contains_self fs _
  · refine ⟨Or.inr (Or.inr ⟨f, ?_, hcm⟩), ?_, by simp⟩
    · rw [srcLookup_mkdir]; exact hs
    · intro g' hg'
      obtain rfl := Option.some.inj (hg ▸ hg')
      exact mkdir_contains_self fs _
  · have hiss : (destLookup
        (FS.mk (fs.src.filter (fun x => x.name != n))
          (DestFile.mk (String.mk g) n f.content f.readable :: fs.dest)
          (mkdirService fs (String.mk g)).destDirs) (String.mk g) n).isSome = true := by
      unfold destLookup
      simp only [List.find?_cons]
      have : ((DestFile.mk (String.mk g) n f.content f.readable).service == String.mk g &&
          ((DestFile.mk (String.mk g) n f.content f.readable).name == n)) = true := by simp
      rw [this]
      rfl
    refine ⟨Or.inl ⟨g, hg, hiss⟩, ?_, fun _ => ⟨g, hg, hiss⟩⟩
    intro g' hg'
    obtain rfl := Option.some.inj (hg ▸ hg')
    exact mkdir_contains_self fs _

theorem reSearch_complete :
    ∀ (l : List Char) (i : Nat), i < l.length → tailMatch (l.drop i) = true →
      (reSearch l).isSome = true := by
  intro l
  induction l with
  | nil => intro i hi; simp at hi
  | cons c t ih =>
    intro i hi htm
    rw [reSearch]
    cases hgs : groupSearch (c :: t) with
    | some g => rfl
    | none =>
      cases i with
      | zero =>
        simp only [List.drop_zero] at htm
        exact absurd htm (by simp [groupSearch_none_tail (c :: t) hgs])
      | succ i' => exact ih i' (by simpa using hi) (by simpa using htm)

theorem organize_nilEq (fs : FS) : organize_logs fs [] = (fs, [], false) := rfl

theorem organize_consEq_crash (fs : FS) (n : String) (rest : List String)
    (h : routeOne fs n = none) : organize_logs fs (n :: rest) = (fs, [], true) := by
  simp only [organize_logs]
  rw [h]

theorem organize_consEq (fs fs1 : FS) (n : String) (o : RouteOutcome) (rest : List String)
    (h : routeOne fs n = some (fs1, o)) :
    organize_logs fs (n :: rest) =
      ((organize_logs fs1 rest).1, (n, o) :: (organize_logs fs1 rest).2.1,
        (organize_logs fs1 rest).2.2) := by
  simp only [organize_logs]
  rw [h]

theorem organize_mono :
    ∀ (logs : List String) (fs fs1 : FS) (out : List (String × RouteOutcome)) (b : Bool),
      organize_logs fs logs = (fs1, out, b) →
      (∀ s nn d, destLookup fs s nn = some d → destLookup fs1 s nn = some d) ∧
      (∀ nn, srcLookup fs nn = none → srcLookup fs1 nn = none) ∧
      (∀ nn f, srcLookup fs nn = some f → f.canMove = false → srcLookup fs1 nn = some f) ∧
      (∀ s, fs.destDirs.contains s = true → fs1.destDirs.contains s = true) := by
  intro logs
  induction logs with
  | nil =>
    intro fs fs1 out b h
    rw [organize_nilEq] at h
    obtain ⟨h1, -⟩ := Prod.mk.injEq .. |>.mp h
    subst h1
    exact ⟨fun _ _ _ => id, fun _ => id, fun _ _ h' _ => h', fun _ => id⟩
  | cons n rest ih =>
    intro fs fs1 out b h
    cases hro : routeOne fs n with
    | none =>
      rw [organize_consEq_crash fs n rest hro] at h
      obtain ⟨h1, -⟩ := Prod.mk.injEq .. |>.mp h
      subst h1
      exact ⟨fun _ _ _ => id, fun _ => id, fun _ _ h' _ => h', fun _ => id⟩
    | some p =>
      obtain ⟨fs', o⟩ := p
      rw [organize_consEq fs fs' n o rest hro] at h
      obtain ⟨h1, -⟩ := Prod.mk.injEq .. |>.mp h
      obtain ⟨m1, m2, m3, m4⟩ := routeOne_mono fs n fs' o hro
      obtain ⟨k1, k2, k3, k4⟩ := ih fs' (organize_logs fs' rest).1 (organize_logs fs' rest).2.1
        (organize_logs fs' rest).2.2 rfl
      subst h1
      exact ⟨fun s nn d hh => k1 s nn d (m1 s nn d hh), fun nn hh => k2 nn (m2 nn hh),
        fun nn f hh hcm => k3 nn f (m3 nn f hh hcm) hcm, fun s hh => k4 s (m4 s hh)⟩

theorem Stuck_mono (fs fs1 : FS) (logs : List String) (out : List (String × RouteOutcome))
    (b : Bool) (h : organize_logs fs logs = (fs1, out, b)) (n : String) (hs : Stuck fs n) :
    Stuck fs1 n := by
  obtain ⟨k1, k2, k3, -⟩ := organize_mono logs fs fs1 out b h
  rcases hs with ⟨g, hg, hd⟩ | hn | ⟨f, hf, hcm⟩
  · obtain ⟨d, hd'⟩ := Option.isSome_iff_exists.mp hd
    exact Or.inl ⟨g, hg, by rw [k1 _ _ _ hd']; rfl⟩
  · exact Or.inr (Or.inl (k2 _ hn))
  · exact Or.inr (Or.inr ⟨f, k3 _ _ hf hcm, hcm⟩)

theorem DirsReady_mono (fs fs1 : FS) (logs : List String) (out : List (String × RouteOutcome))
    (b : Bool) (h : organize_logs fs logs = (fs1, out, b)) (n : String) (hd : DirsReady fs n) :
    DirsReady fs1 n :=
  fun g hg => (organize_mono logs fs fs1 out b h).2.2.2 _ (hd g hg)

theorem organize_establishes :
    ∀ (logs : List String) (fs fs1 : FS) (out : List (String × RouteOutcome)),
      organize_logs fs logs = (fs1, out, false) →
      ∀ n ∈ logs, Stuck fs1 n ∧ DirsReady fs1 n := by
  intro logs
  induction logs with
  | nil => intro fs fs1 out h n hn; simp at hn
  | cons m rest ih =>
    intro fs fs1 out h n hn
    cases hro : routeOne fs m with
    | none =>
      rw [organize_consEq_crash fs m rest hro] at h
      have h3 := congrArg (fun p => p.2.2) h
      simp at h3
    | some p =>
      obtain ⟨fs', o⟩ := p
      rw [organize_consEq fs fs' m o rest hro] at h
      have h1 := congrArg (fun p => p.1) h
      have h3 := congrArg (fun p => p.2.2) h
      simp only at h1 h3
      have hrest : organize_logs fs' rest = (fs1, (organize_logs fs' rest).2.1, false) := by
        rw [← h1, ← h3]
      rcases List.mem_cons.mp hn with rfl | hn'
      · obtain ⟨hstuck, hdirs, -⟩ := routeOne_establishes fs n fs' o hro
        exact ⟨Stuck_mono fs' fs1 rest _ _ hrest n hstuck,
          DirsReady_mono fs' fs1 rest _ _ hrest n hdirs⟩
      · exact ih fs' fs1 _ hrest n hn'

theorem organize_moved :
    ∀ (logs : List String) (fs fs1 : FS) (out : List (String × RouteOutcome)),
      organize_logs fs logs = (fs1, out, false) →
      ∀ n, (n, RouteOutcome.moved) ∈ out →
        ∃ g, reSearch n.data = some g ∧ (destLookup fs1 (String.mk g) n).isSome = true := by
  intro logs
  induction logs with
  | nil =>
    intro fs fs1 out h n hn
    rw [organize_nilEq] at h
    have h2 := congrArg (fun p => p.2.1) h
    simp only at h2
    rw [← h2] at hn
    simp at hn
  | cons m rest ih =>
    intro fs fs1 out h n hn
    cases hro : routeOne fs m with
    | none =>
      rw [organize_consEq_crash fs m rest hro] at h
      have h3 := congrArg (fun p => p.2.2) h
      simp at h3
    | some p =>
      obtain ⟨fs', o⟩ := p
      rw [organize_consEq fs fs' m o rest hro] at h
      have h1 := congrArg (fun p => p.1) h
      have h2 := congrArg (fun p => p.2.1) h
      have h3 := congrArg (fun p => p.2.2) h
      simp only at h1 h2 h3
      have hrest : organize_logs fs' rest = (fs1, (organize_logs fs' rest).2.1, false) := by
        rw [← h1, ← h3]
      rw [← h2] at hn
      rcases List.mem_cons.mp hn with heq | hn'
      · obtain ⟨rfl, ho⟩ := Prod.mk.injEq .. |>.mp heq
        obtain ⟨-, -, hmv⟩ := routeOne_establishes fs n fs' o hro
        obtain ⟨g, hg, hiss⟩ := hmv ho.symm
        obtain ⟨d, hd⟩ := Option.isSome_iff_exists.mp hiss
        obtain ⟨k1, -, -, -⟩ := organize_mono rest fs' fs1 _ _ hrest
        exact ⟨g, hg, by rw [k1 _ _ _ hd]; rfl⟩
      · exact ih fs' fs1 _ hrest n hn'

theorem organize_out_names :
    ∀ (logs : List String) (fs fs1 : FS) (out : List (String × RouteOutcome)) (b : Bool),
      organize_logs fs logs = (fs1, out, b) → ∀ p ∈ out, p.1 ∈ logs := by
  intro logs
  induction logs with
  | nil =>
    intro fs fs1 out b h p hp
    rw [organize_nilEq] at h
    have h2 := congrArg (fun q => q.2.1) h
    simp only at h2
    rw [← h2] at hp
    simp at hp
  | cons m rest ih =>
    intro fs fs1 out b h p hp
    cases hro : routeOne fs m with
    | none =>
      rw [organize_consEq_crash fs m rest hro] at h
      have h2 := congrArg (fun q => q.2.1) h
      simp only at h2
      rw [← h2] at hp
      simp at hp
    | some q =>
      obtain ⟨fs', o⟩ := q
      rw [organize_consEq fs fs' m o rest hro] at h
      have h2 := congrArg (fun q => q.2.1) h
      simp only at h2
      rw [← h2] at hp
      rcases List.mem_cons.mp hp with rfl | hp'
      · exact List.mem_cons_self m rest
      · exact List.mem_cons_of_mem m (ih fs' (organize_logs fs' rest).1 _
          (organize_logs fs' rest).2.2 rfl p hp')

theorem organize_no_crash :
    ∀ (logs : List String) (fs : FS), (∀ n ∈ logs, (reSearch n.data).isSome = true) →
      (organize_logs fs logs).2.2 = false ∧
      (organize_logs fs logs).2.1.length = logs.length := by
  intro logs
  induction logs with
  | nil => intro fs _; exact ⟨rfl, rfl⟩
  | cons m rest ih =>
    intro fs h
    obtain ⟨fs', o, hro⟩ := routeOne_isSome fs m (h m (List.mem_cons_self m rest))
    rw [organize_consEq fs fs' m o rest hro]
    obtain ⟨ih1, ih2⟩ := ih fs' (fun n hn => h n (List.mem_cons_of_mem m hn))
    exact ⟨ih1, by simp [ih2]⟩

theorem stuckOutcome_skip (fs : FS) (n : String) (g : List Char) (d : DestFile)
    (hg : reSearch n.data = some g) (hd : destLookup fs (String.mk g) n = some d) :
    stuckOutcome fs n = RouteOutcome.skippedExists := by
  unfold stuckOutcome
  rw [hg]
  simp [hd]

theorem stuckOutcome_nf (fs : FS) (n : String) (g : List Char)
    (hg : reSearch n.data = some g) (hd : destLookup fs (String.mk g) n = none)
    (hs : srcLookup fs n = none) :
    stuckOutcome fs n = RouteOutcome.errNotFound := by
  unfold stuckOutcome
  rw [hg]
  simp [hd, hs]

theorem stuckOutcome_perm (fs : FS) (n : String) (g : List Char) (f : SrcFile)
    (hg : reSearch n.data = some g) (hd : destLookup fs (String.mk g) n = none)
    (hs : srcLookup fs n = some f) (hcm : f.canMove = false) :
    stuckOutcome fs n = RouteOutcome.errPerm := by
  unfold stuckOutcome
  rw [hg]
  simp [hd, hs, hcm]

theorem routeOne_stuckEq (fs : FS) (n : String) (hg : (reSearch n.data).isSome = true)
    (hstuck : Stuck fs n) (hdirs : DirsReady fs n) :
    routeOne fs n = some (fs, stuckOutcome fs n) := by
  obtain ⟨g, hgeq⟩ := Option.isSome_iff_exists.mp hg
  have hmk : mkdirService fs (String.mk g) = fs := mkdir_noop fs _ (hdirs g hgeq)
  cases hd : destLookup fs (String.mk g) n with
  | some d =>
    rw [routeOne_skipEq fs n g d hgeq hd, hmk, stuckOutcome_skip fs n g d hgeq hd]
  | none =>
    rcases hstuck with ⟨g', hg', hds⟩ | hn | ⟨f, hf, hcm⟩
    · rw [hgeq] at hg'
      obtain rfl := Option.some.inj hg'
      rw [hd] at hds
      simp at hds
    · rw [routeOne_notfoundEq fs n g hgeq hd hn, hmk, stuckOutcome_nf fs n g hgeq hd hn]
    · rw [routeOne_permEq fs n g f hgeq hd hf hcm, hmk,
        stuckOutcome_perm fs n g f hgeq hd hf hcm]

theorem stuckOutcome_ne_moved (fs : FS) (n : String) (hstuck : Stuck fs n) :
    stuckOutcome fs n ≠ RouteOutcome.moved := by
  cases hg : reSearch n.data with
  | none => unfold stuckOutcome; rw [hg]; simp
  | some g =>
    cases hd : destLookup fs (String.mk g) n with
    | some d => rw [stuckOutcome_skip fs n g d hg hd]; simp
    | none =>
      rcases hstuck with ⟨g', hg', hds⟩ | hn | ⟨f, hf, hcm⟩
      · rw [hg] at hg'
        obtain rfl := Option.some.inj hg'
        rw [hd] at hds
        simp at hds
      · rw [stuckOutcome_nf fs n g hg hd hn]; simp
      · rw [stuckOutcome_perm fs n g f hg hd hf hcm]; simp

theorem organize_stuck_run :
    ∀ (logs : List String) (fs : FS),
      (∀ n ∈ logs, (reSearch n.data).isSome = true ∧ Stuck fs n ∧ DirsReady fs n) →
      organize_logs fs logs = (fs, logs.map (fun n => (n, stuckOutcome fs n)), false) := by
  intro logs
  induction logs with
  | nil => intro fs _; rfl
  | cons m rest ih =>
    intro fs h
    obtain ⟨h1, h2, h3⟩ := h m (List.mem_cons_self m rest)
    rw [organize_consEq fs fs m (stuckOutcome fs m) rest (routeOne_stuckEq fs m h1 h2 h3)]
    rw [ih fs (fun n hn => h n (List.mem_cons_of_mem m hn))]
    simp [List.map_cons]

theorem find_error_spec (files : List AuditFile) :
    find_error_in_logs files =
      ((files.takeWhile (fun f => f.readable)).map reportLine,
        files.any (fun f => !f.readable)) := by
  induction files with
  | nil => rfl
  | cons f rest ih =>
    by_cases hr : f.readable = true
    · simp [find_error_in_logs, List.takeWhile_cons, List.any_cons, hr, ih]
    · have hr' : f.readable = false := by simpa using hr
      simp [find_error_in_logs, List.takeWhile_cons, List.any_cons, hr']

theorem takeWhile_readable_all (fl : List AuditFile) (h : ∀ f ∈ fl, f.readable = true) :
    fl.takeWhile (fun f => f.readable) = fl := by
  induction fl with
  | nil => rfl
  | cons a t ih =>
    rw [List.takeWhile_cons, h a (List.mem_cons_self a t)]
    simp [ih (fun f hf => h f (List.mem_cons_of_mem a hf))]

/-- C1: the pipeline never passes a discovered log file to the routing stage. The glob
generator is exhausted by the `len(list(logs_found))` emptiness check, so `organize_logs`
iterates an empty iterator on every run: the returned filesystem is always the input one
and the outcome list is always empty. At the concrete failing input — a source directory
holding `app_2024-01-01.log` — one log file is discovered, yet routing processes zero
files and the audit then reports over the untouched (empty) destination tree. -/
theorem c1_pipeline_routes_nothing :
    (∀ fs : FS, (mainRun fs).outcomes = [] ∧ (mainRun fs).fs = fs) ∧
    globLogs fsSample1 = ["app_2024-01-01.log"] ∧
    mainRun fsSample1 = MainResult.mk false fsSample1 [] (some []) false := by
  refine ⟨?_, by decide, by decide⟩
  intro fs
  simp only [mainRun, genTakeAll, organize_logs]
  by_cases h : (globLogs fs).length = 0
  · rw [if_pos h]
    exact ⟨rfl, rfl⟩
  · rw [if_neg h]
    exact ⟨rfl, rfl⟩

/-- C2 counterexample: an unreadable file met mid-audit aborts the audit of the remaining
files: with `a.log` readable (1 match), `b.log` unreadable, `c.log` readable, the report
contains only the `a.log` line — the readable `c.log` is never audited — refuting the
claim that every remaining file is still processed. -/
theorem c2_counterexample :
    find_error_in_logs [AuditFile.mk "a.log" "error" true, AuditFile.mk "b.log" "" false,
        AuditFile.mk "c.log" "error" true] = (["a.log: 1 errores\n"], true) ∧
    ¬ ("c.log: 1 errores\n" ∈ (find_error_in_logs [AuditFile.mk "a.log" "error" true,
        AuditFile.mk "b.log" "" false, AuditFile.mk "c.log" "error" true]).1) := by
  decide

/-- C2 (amended): a per-file failure during Routing (source vanished, permission denied)
never aborts the routing stage — every file of the list gets an outcome, provided every
name classifies; but during Auditing the `try` wraps the whole loop, so the report
consists of exactly the lines of the files before the first unreadable one, and the
presence of an unreadable file sets the error flag. -/
theorem c2_amended :
    (∀ (fs : FS) (logs : List String), (∀ n ∈ logs, (reSearch n.data).isSome = true) →
      (organize_logs fs logs).2.2 = false ∧
      (organize_logs fs logs).2.1.length = logs.length) ∧
    (∀ files : List AuditFile,
      find_error_in_logs files =
        ((files.takeWhile (fun f => f.readable)).map reportLine,
          files.any (fun f => !f.readable))) :=
  ⟨fun fs logs h => organize_no_crash logs fs h, fun files => find_error_spec files⟩

/-- C2 witness: routing a list with a vanished source and a permission-protected source
still yields one outcome per file and no stage abort. -/
theorem c2_witness :
    (organize_logs fsTwo ["a_2024-01-01.log", "gone_2024-01-01.log", "b_2024-01-01.log"]).2.2
        = false ∧
    (organize_logs fsTwo
        ["a_2024-01-01.log", "gone_2024-01-01.log", "b_2024-01-01.log"]).2.1.length = 3 := by
  have h := c2_amended.1 fsTwo ["a_2024-01-01.log", "gone_2024-01-01.log", "b_2024-01-01.log"]
    (by decide)
  exact ⟨h.1, h.2⟩

/-- C3 counterexample: a name that does not match the classification pattern does not
produce a per-file failure: `organize_logs` on `bad.log` followed by the well-formed
`svc_2024-01-01.log` aborts at the first file (uncaught `AttributeError`), routes
nothing, and never reaches the second file. -/
theorem c3_counterexample :
    reSearch "bad.log".data = none ∧
    (reSearch "svc_2024-01-01.log".data).isSome = true ∧
    organize_logs (FS.mk [SrcFile.mk "bad.log" "x" true true,
        SrcFile.mk "svc_2024-01-01.log" "x" true true] [] [])
        ["bad.log", "svc_2024-01-01.log"]
      = (FS.mk [SrcFile.mk "bad.log" "x" true true,
          SrcFile.mk "svc_2024-01-01.log" "x" true true] [] [], [], true) := by
  decide

/-- C3 (amended): a file whose name does not match the pattern aborts the routing stage
at that file: the files before it in iteration order are processed as usual, and the
non-matching file and every later file are not processed at all (the crash flag is set). -/
theorem c3_amended :
    ∀ (pre : List String) (fs : FS) (bad : String) (post : List String),
      (∀ n ∈ pre, (reSearch n.data).isSome = true) → reSearch bad.data = none →
      organize_logs fs (pre ++ bad :: post) =
        ((organize_logs fs pre).1, (organize_logs fs pre).2.1, true) := by
  intro pre
  induction pre with
  | nil =>
    intro fs bad post _ hbad
    rw [List.nil_append, organize_consEq_crash fs bad post (routeOne_noneEq fs bad hbad)]
    rfl
  | cons m rest ih =>
    intro fs bad post hpre hbad
    obtain ⟨fs', o, hro⟩ := routeOne_isSome fs m (hpre m (List.mem_cons_self m rest))
    rw [List.cons_append, organize_consEq fs fs' m o (rest ++ bad :: post) hro,
      ih fs' bad post (fun n hn => hpre n (List.mem_cons_of_mem m hn)) hbad,
      organize_consEq fs fs' m o rest hro]

/-- C3 witness: one well-formed name before the bad one, one after: the run equals the
run on the prefix alone, with the crash flag set. -/
theorem c3_witness :
    organize_logs fsSample1 ["app_2024-01-01.log", "nodate.log", "later_2024-01-01.log"]
      = ((organize_logs fsSample1 ["app_2024-01-01.log"]).1,
          (organize_logs fsSample1 ["app_2024-01-01.log"]).2.1, true) :=
  c3_amended ["app_2024-01-01.log"] fsSample1 "nodate.log" ["later_2024-01-01.log"]
    (by decide) (by decide)

/-- C4 counterexample: the marker does not match within `errors`: the audit count of a
file whose content is exactly `errors` is 0, and the declarative whole-word count agrees,
refuting the claim's statement that `\berror\b` also matches within `errors`. -/
theorem c4_counterexample :
    countErrors "errors".data = 0 ∧ posCount false "errors".data = 0 := by
  decide

/-- C4 (amended): the audit count is a pure function of the file content, equal to the
number of positions at which `error` occurs case-insensitively with no word character
(letter, digit or underscore) adjacent on either side; an occurrence inside a larger
token such as `errorless` is not counted, and the marker does not match within `errors`. -/
theorem c4_audit_count_pure :
    (∀ l : List Char, countErrors l = posCount false l) ∧
    countErrors "errorless".data = 0 ∧
    countErrors "see error and errors".data = 1 := by
  refine ⟨fun l => errScan_eq_posCount false l, by decide, by decide⟩

/-- C5 counterexample: classification does not succeed exactly on whole-pattern names:
`_2024-01-01.log` (empty service) is accepted with service `""`, and
`a_2024-01-01xlogs` (no `.log` extension, arbitrary character for the unescaped dot,
trailing garbage) is accepted as well, though neither matches the spec's whole pattern. -/
theorem c5_counterexample :
    reSearch "_2024-01-01.log".data = some [] ∧
    specWholePattern "_2024-01-01.log".data = false ∧
    (reSearch "a_2024-01-01xlogs".data).isSome = true ∧
    specWholePattern "a_2024-01-01xlogs".data = false := by
  decide

/-- C5 (amended): classification succeeds exactly on names containing, at some position,
an underscore, a 4-2-2 digit date, one arbitrary non-newline character, and the letters
`log` — the pattern is an unanchored search whose service group may be empty and whose
dot matches any character, so a missing date suffix is rejected but a wrong extension
need not be. -/
theorem c5_classify_success_iff (l : List Char) :
    (reSearch l).isSome = true ↔ ∃ i, i < l.length ∧ tailMatch (l.drop i) = true :=
  ⟨fun h => reSearch_sound_anchor l h, fun h => reSearch_complete l h.choose
    h.choose_spec.1 h.choose_spec.2⟩

/-- C6: when the computed destination path already exists, routing skips the file: the
destination tree and the source directory are unchanged (so the existing destination
content is untouched and the source file stays in place), the outcome recorded for the
file is the skip notice, and the run continues with the remaining files. -/
theorem c6_no_overwrite (fs : FS) (n : String) (rest : List String) (g : List Char)
    (d : DestFile) (hg : reSearch n.data = some g)
    (hd : destLookup fs (String.mk g) n = some d) :
    routeOne fs n = some (mkdirService fs (String.mk g), RouteOutcome.skippedExists) ∧
    (mkdirService fs (String.mk g)).dest = fs.dest ∧
    (mkdirService fs (String.mk g)).src = fs.src ∧
    destLookup (mkdirService fs (String.mk g)) (String.mk g) n = some d ∧
    organize_logs fs (n :: rest) =
      ((organize_logs (mkdirService fs (String.mk g)) rest).1,
        (n, RouteOutcome.skippedExists) ::
          (organize_logs (mkdirService fs (String.mk g)) rest).2.1,
        (organize_logs (mkdirService fs (String.mk g)) rest).2.2) := by
  refine ⟨routeOne_skipEq fs n g d hg hd, rfl, rfl, ?_, ?_⟩
  · rw [destLookup_mkdir]
    exact hd
  · exact organize_consEq fs _ n RouteOutcome.skippedExists rest (routeOne_skipEq fs n g d hg hd)

/-- C6 witness: a name colliding with an existing destination file is skipped and the
state is preserved. -/
theorem c6_witness :
    routeOne fsCollide "svc_2024-01-01.log"
      = some (mkdirService fsCollide "svc", RouteOutcome.skippedExists) ∧
    (mkdirService fsCollide "svc").dest = fsCollide.dest ∧
    (mkdirService fsCollide "svc").src = fsCollide.src := by
  have h := c6_no_overwrite fsCollide "svc_2024-01-01.log" [] "svc".data
    (DestFile.mk "svc" "svc_2024-01-01.log" "old" true) (by decide) (by decide)
  exact ⟨h.1, h.2.1, h.2.2.1⟩

/-- C7: the routing stage is idempotent: running `organize_logs` a second time over the
same file list, starting from the state the first run produced, changes nothing — the
state is the same, no crash occurs, the second run moves no file at all, and every file
the first run moved is skipped (its destination now exists). -/
theorem c7_routing_idempotent (fs : FS) (logs : List String)
    (h : ∀ n ∈ logs, (reSearch n.data).isSome = true) :
    (organize_logs (organize_logs fs logs).1 logs).1 = (organize_logs fs logs).1 ∧
    (organize_logs (organize_logs fs logs).1 logs).2.2 = false ∧
    (∀ p ∈ (organize_logs (organize_logs fs logs).1 logs).2.1,
      p.2 ≠ RouteOutcome.moved) ∧
    (∀ n, (n, RouteOutcome.moved) ∈ (organize_logs fs logs).2.1 →
      (n, RouteOutcome.skippedExists) ∈ (organize_logs (organize_logs fs logs).1 logs).2.1) := by
  have hb : (organize_logs fs logs).2.2 = false := (organize_no_crash logs fs h).1
  have he1 : organize_logs fs logs =
      ((organize_logs fs logs).1, (organize_logs fs logs).2.1, false) := by
    rw [← hb]
  have hest := organize_establishes logs fs (organize_logs fs logs).1
    (organize_logs fs logs).2.1 he1
  have hrun2 := organize_stuck_run logs (organize_logs fs logs).1
    (fun n hn => ⟨h n hn, (hest n hn).1, (hest n hn).2⟩)
  refine ⟨?_, ?_, ?_, ?_⟩
  · rw [hrun2]
  · rw [hrun2]
  · rw [hrun2]
    intro p hp
    simp only [List.mem_map] at hp
    obtain ⟨n, hn, rfl⟩ := hp
    simpa using stuckOutcome_ne_moved (organize_logs fs logs).1 n (hest n hn).1
  · intro n hmem
    obtain ⟨g, hg, hiss⟩ := organize_moved logs fs (organize_logs fs logs).1
      (organize_logs fs logs).2.1 he1 n hmem
    obtain ⟨d, hd⟩ := Option.isSome_iff_exists.mp hiss
    have hnl : n ∈ logs := organize_out_names logs fs _ _ _ he1 (n, RouteOutcome.moved) hmem
    rw [hrun2]
    refine List.mem_map.mpr ⟨n, hnl, ?_⟩
    rw [stuckOutcome_skip (organize_logs fs logs).1 n g d hg hd]

/-- C7 witness: a second run over a two-file source (one moved, one permission-stuck,
plus a vanished name) leaves the state unchanged and skips the moved file. -/
theorem c7_witness :
    (organize_logs (organize_logs fsTwo
        ["a_2024-01-01.log", "b_2024-01-01.log", "ghost_2024-01-01.log"]).1
        ["a_2024-01-01.log", "b_2024-01-01.log", "ghost_2024-01-01.log"]).1
      = (organize_logs fsTwo
          ["a_2024-01-01.log", "b_2024-01-01.log", "ghost_2024-01-01.log"]).1 ∧
    ("a_2024-01-01.log", RouteOutcome.skippedExists) ∈
      (organize_logs (organize_logs fsTwo
          ["a_2024-01-01.log", "b_2024-01-01.log", "ghost_2024-01-01.log"]).1
          ["a_2024-01-01.log", "b_2024-01-01.log", "ghost_2024-01-01.log"]).2.1 := by
  have h := c7_routing_idempotent fsTwo
    ["a_2024-01-01.log", "b_2024-01-01.log", "ghost_2024-01-01.log"] (by decide)
  exact ⟨h.1, h.2.2.2 "a_2024-01-01.log" (by decide)⟩

/-- C8 counterexample: for the valid name `a\nb_2024-01-01.log` (service `a\nb`, one date
anchor), classify does not return the substring preceding the date anchor: the greedy
group cannot cross the newline, so the search restarts after it and returns `b`. -/
theorem c8_counterexample :
    specWholePattern "a\nb_2024-01-01.log".data = true ∧
    "a\nb_2024-01-01.log".data = "a\nb".data ++ "_2024-01-01.log".data ∧
    tailMatch "_2024-01-01.log".data = true ∧
    reSearch "a\nb_2024-01-01.log".data = some ['b'] ∧
    ¬ reSearch "a\nb_2024-01-01.log".data = some "a\nb".data := by
  decide

/-- C8 (amended): for every newline-free name, if position `j` is the last position whose
suffix matches the date anchor `_YYYY-MM-DD` plus any character plus `log`, then classify
returns exactly the prefix of length `j` — the greedy service capture binds everything up
to the last matching date anchor. -/
theorem c8_greedy_last_anchor (l : List Char) (j : Nat) (hnl : '\n' ∉ l)
    (hj : tailMatch (l.drop j) = true)
    (hmax : ∀ i, i < l.length → tailMatch (l.drop i) = true → i ≤ j) :
    reSearch l = some (l.take j) := by
  have hjl : j < l.length := by
    by_contra hc
    push_neg at hc
    rw [List.drop_eq_nil_of_le hc] at hj
    exact absurd hj (by simp [tailMatch_nil])
  have hgs : (groupSearch l).isSome = true := groupSearch_complete l hnl j hj
  obtain ⟨g, hg⟩ := Option.isSome_iff_exists.mp hgs
  obtain ⟨r, hr, htm⟩ := groupSearch_sound l g hg
  have hrne : r ≠ [] := fun e => by
    rw [e] at htm
    exact absurd htm (by simp [tailMatch_nil])
  have hrlen : 0 < r.length := List.length_pos.mpr hrne
  have hglen : g.length < l.length := by
    rw [hr, List.length_append]
    omega
  have hanchor : tailMatch (l.drop g.length) = true := by
    rw [hr, List.drop_left]
    exact htm
  have h1 : g.length ≤ j := hmax g.length hglen hanchor
  have h2 : j ≤ g.length := groupSearch_max l g hnl hg j hj
  have hj2 : j = g.length := Nat.le_antisymm h2 h1
  rw [reSearch_of_groupSearch l g hg, hj2, hr, List.take_left]

/-- C8 witness: in `svc_2024-01-01_2024-02-02.log` the only matching date anchor is at
position 14, and classify returns the 14-character prefix `svc_2024-01-01`. -/
theorem c8_witness :
    reSearch "svc_2024-01-01_2024-02-02.log".data
      = some ("svc_2024-01-01_2024-02-02.log".data.take 14) :=
  c8_greedy_last_anchor "svc_2024-01-01_2024-02-02.log".data 14 (by decide) (by decide)
    (by decide)

/-- C9: for an all-readable traversal the report holds exactly one line per audited file,
in traversal order, in the fixed form `<name>: <count> errores\n`; in particular for
`a.log` with 2 matches and `b.log` with 0 matches the report lines are exactly
`a.log: 2 errores` and `b.log: 0 errores`. -/
theorem c9_report_lines :
    (∀ files : List AuditFile, (∀ f ∈ files, f.readable = true) →
      (find_error_in_logs files).1 = files.map reportLine) ∧
    (∀ ca cb : String, countErrors ca.data = 2 → countErrors cb.data = 0 →
      (find_error_in_logs [AuditFile.mk "a.log" ca true, AuditFile.mk "b.log" cb true]).1
        = ["a.log: 2 errores\n", "b.log: 0 errores\n"]) := by
  constructor
  · intro files h
    rw [find_error_spec files, takeWhile_readable_all files h]
  · intro ca cb h2 h0
    have e1 : reportLine (AuditFile.mk "a.log" ca true) = "a.log: 2 errores\n" := by
      unfold reportLine
      rw [h2]
      show "a.log" ++ ": " ++ Nat.repr 2 ++ " errores\n" = "a.log: 2 errores\n"
      decide
    have e2 : reportLine (AuditFile.mk "b.log" cb true) = "b.log: 0 errores\n" := by
      unfold reportLine
      rw [h0]
      show "b.log" ++ ": " ++ Nat.repr 0 ++ " errores\n" = "b.log: 0 errores\n"
      decide
    simp [find_error_in_logs, e1, e2]

/-- C9 witness: concrete contents with 2 and 0 whole-word matches yield exactly the two
expected report lines. -/
theorem c9_witness :
    (find_error_in_logs [AuditFile.mk "a.log" "error ERROR" true,
        AuditFile.mk "b.log" "all fine" true]).1
      = ["a.log: 2 errores\n", "b.log: 0 errores\n"] :=
  c9_report_lines.2 "error ERROR" "all fine" (by decide) (by decide)

/-- C10: when the source directory holds no top-level `*.log` file, the driver exits with
an error before any routing, auditing or report writing: the filesystem is untouched, no
outcome is recorded and no report is written. -/
theorem c10_no_logs_exits_early (fs : FS) (h : globLogs fs = []) :
    mainRun fs = MainResult.mk true fs [] none false := by
  simp [mainRun, genTakeAll, h]

/-- C10 witness: a directory holding only `readme.txt` makes the driver exit early. -/
theorem c10_witness :
    mainRun fsNoLogs = MainResult.mk true fsNoLogs [] none false :=
  c10_no_logs_exits_early fsNoLogs (by decide)

end OrderLogs
